import Mathlib

/-!
Verification of the mod reconciliation script `launcher/download_mods.py`.

Strings are shallowly embedded as `List Char`; JSON dictionaries with
optional fields become structures of `Option` fields (`.get(k, d)` is
`Option.getD`), the Python `dict` of latest versions becomes an
association list with most-recent-insert-first lookup, and the network is
an oracle function passed to the run.
-/

namespace FactorioDaemon

/-- Strings of the script, embedded as lists of characters. -/
abbrev Str := List Char

/-- The fixed artifact suffix `.zip`. -/
def zipSuffix : Str := ".zip".toList

/-- `BASE_GAME_MODS`: base game mods provided with Factorio, never downloaded. -/
def BASE_GAME_MODS : List Str :=
  ["base".toList, "elevated-rails".toList, "quality".toList, "space-age".toList]

/-- One record of `mod-list.json`: both fields may be absent
(`mod.get("name", "")`, `mod.get("enabled", False)`). -/
structure ModEntry where
  name : Option Str
  enabled : Option Bool
deriving DecidableEq

/-- `get_enabled_mods`: names of enabled mods in declaration order,
excluding `BASE_GAME_MODS`. -/
def get_enabled_mods (mods : List ModEntry) : List Str :=
  mods.filterMap fun m =>
    let mod_name := m.name.getD []
    if m.enabled.getD false ∧ mod_name ∉ BASE_GAME_MODS then some mod_name else none

/-- `get_enabled_mod_names`: names of all enabled mods, including base game
mods (a Python `set`, modelled as a list used only through membership). -/
def get_enabled_mod_names (mods : List ModEntry) : List Str :=
  mods.filterMap fun m =>
    if m.enabled.getD false then some (m.name.getD []) else none

/-- `base.rfind('_')` followed by the two slices: split at the last
underscore, `none` when there is none. -/
def rsplitUnderscore : Str → Option (Str × Str)
  | [] => none
  | c :: cs =>
    match rsplitUnderscore cs with
    | some (pre, post) => some (c :: pre, post)
    | none => if c = '_' then some ([], cs) else none

/-- `parse_mod_filename`: strip the `.zip` suffix, split at the last
underscore, reject empty name or version. -/
def parse_mod_filename (filename : Str) : Option (Str × Str) :=
  if zipSuffix.isSuffixOf filename then
    let base := filename.take (filename.length - 4)
    match rsplitUnderscore base with
    | none => none
    | some (mod_name, version) =>
      if mod_name = [] ∨ version = [] then none else some (mod_name, version)
  else none

/-- One element of a mod's `releases` list as used by the script:
`version`, `download_url` and `file_name` are read with `.get`, so each may
be absent.  `extra` records whether the release object carries any further
keys: `main` tests the selected release with `if not latest:`, whose truth
depends on the whole dict, not only on the three keys the script reads. -/
structure Release where
  version : Option Str
  download_url : Option Str
  file_name : Option Str
  extra : Bool
deriving DecidableEq

/-- Python truthiness of the release dict: `not latest` holds exactly when
the release is the empty object `\x7b\x7d`. -/
def release_empty (r : Release) : Bool :=
  r.version.isNone && r.download_url.isNone && r.file_name.isNone && !r.extra

/-- `get_latest_release`: `None` on an empty releases list, else the last
element (`releases[-1]`). -/
def get_latest_release (releases : List Release) : Option Release :=
  if h : releases = [] then none else some (releases.getLast h)

/-- The catalog oracle: `catalog n = none` models `fetch_mod_info`
returning `None` (HTTP/connection/JSON error); `some rs` models a
successful response whose `releases` field is `rs`. -/
abbrev Catalog := Str → Option (List Release)

/-- The transfer oracle: whether `download_mod` succeeds for a given target
file name.  On success the file is written to storage; on failure (the
HTTP-error paths) no file is recorded. -/
abbrev FetchOracle := Str → Bool

/-- `version = latest.get("version", "unknown")`. -/
def release_version (latest : Release) : Str :=
  latest.version.getD "unknown".toList

/-- `filename = latest.get("file_name", f"\x7bmod_name\x7d_\x7bversion\x7d.zip")`. -/
def target_filename (mod_name : Str) (latest : Release) : Str :=
  latest.file_name.getD (mod_name ++ '_' :: release_version latest ++ zipSuffix)

/-- Mutable state of `main`'s download loop: the mods directory contents,
`latest_versions`, the three counters and the download attempts made. -/
structure RunState where
  storage : List Str
  latest_versions : List (Str × Str)
  success_count : Nat
  skipped_count : Nat
  failed_count : Nat
  downloads : List Str
deriving DecidableEq

/-- One iteration of `main`'s download loop for `mod_name`.  The guard
`if not latest:` skips both a `None` from `get_latest_release` and a
selected release that is the empty object.  The Python `dict` assignment
`latest_versions[mod_name] = version` is modelled by prepending, with
`List.lookup` finding the most recent entry. -/
def process_mod (catalog : Catalog) (fetchOk : FetchOracle)
    (st : RunState) (mod_name : Str) : RunState :=
  match catalog mod_name with
  | none => { st with failed_count := st.failed_count + 1 }
  | some releases =>
    match get_latest_release releases with
    | none => { st with skipped_count := st.skipped_count + 1 }
    | some latest =>
      if release_empty latest then
        { st with skipped_count := st.skipped_count + 1 }
      else
      let filename := target_filename mod_name latest
      let st1 := { st with
        latest_versions := (mod_name, release_version latest) :: st.latest_versions }
      if filename ∈ st1.storage then
        { st1 with skipped_count := st1.skipped_count + 1 }
      else if fetchOk filename then
        { st1 with downloads := st1.downloads ++ [filename],
                   storage := st1.storage ++ [filename],
                   success_count := st1.success_count + 1 }
      else
        { st1 with downloads := st1.downloads ++ [filename],
                   failed_count := st1.failed_count + 1 }

/-- The state entering the download loop. -/
def init_state (storage0 : List Str) : RunState :=
  { storage := storage0, latest_versions := [], success_count := 0,
    skipped_count := 0, failed_count := 0, downloads := [] }

/-- `main`'s download loop over the enabled mods. -/
def download_phase (catalog : Catalog) (fetchOk : FetchOracle)
    (mods : List ModEntry) (storage0 : List Str) : RunState :=
  List.foldl (process_mod catalog fetchOk) (init_state storage0) (get_enabled_mods mods)

/-- The outcome of `cleanup_old_mods`: surviving files and the two
counters. -/
structure CleanupResult where
  remaining : List Str
  deleted_count : Nat
  kept_count : Nat
deriving DecidableEq

/-- One iteration of the `cleanup_old_mods` loop.  The outer `if` models
`glob("*.zip")`: non-`.zip` files are never visited.  The staleness test is
`if latest_version and version != latest_version`, where both `None` and
the empty string are falsy. -/
def cleanup_step (enabledNames : List Str) (lvm : List (Str × Str))
    (acc : CleanupResult) (f : Str) : CleanupResult :=
  if zipSuffix.isSuffixOf f then
    match parse_mod_filename f with
    | none => { acc with remaining := acc.remaining ++ [f] }
    | some (mod_name, version) =>
      if mod_name ∉ enabledNames then
        { acc with deleted_count := acc.deleted_count + 1 }
      else
        match lvm.lookup mod_name with
        | some lv =>
          if lv ≠ [] ∧ version ≠ lv then
            { acc with deleted_count := acc.deleted_count + 1 }
          else
            { acc with remaining := acc.remaining ++ [f],
                       kept_count := acc.kept_count + 1 }
        | none =>
          { acc with remaining := acc.remaining ++ [f],
                     kept_count := acc.kept_count + 1 }
  else { acc with remaining := acc.remaining ++ [f] }

/-- `cleanup_old_mods` over the storage contents. -/
def cleanup_old_mods (enabledNames : List Str) (lvm : List (Str × Str))
    (storage : List Str) : CleanupResult :=
  List.foldl (cleanup_step enabledNames lvm) ⟨[], 0, 0⟩ storage

/-- `write_filtered_mod_list`: keep exactly the entries with
`mod.get("enabled", False)` true, preserving them verbatim. -/
def write_filtered_mod_list (mods : List ModEntry) : List ModEntry :=
  mods.filter fun m => m.enabled.getD false

/-- Result of one complete run of `main` past its preconditions. -/
structure RunResult where
  storage : List Str
  latest_versions : List (Str × Str)
  success_count : Nat
  skipped_count : Nat
  failed_count : Nat
  downloads : List Str
  deleted_count : Nat
  kept_count : Nat
  filtered_mods : List ModEntry
  exit_code : Nat
deriving DecidableEq

/-- One complete run of `main` (credentials present, `mod-list.json`
found): download loop, then cleanup with the full enabled-name set and the
accumulated `latest_versions`, then the filtered list; exit 1 iff any item
failed. -/
def full_run (catalog : Catalog) (fetchOk : FetchOracle)
    (mods : List ModEntry) (storage0 : List Str) : RunResult :=
  let st := download_phase catalog fetchOk mods storage0
  let cl := cleanup_old_mods (get_enabled_mod_names mods) st.latest_versions st.storage
  { storage := cl.remaining
    latest_versions := st.latest_versions
    success_count := st.success_count
    skipped_count := st.skipped_count
    failed_count := st.failed_count
    downloads := st.downloads
    deleted_count := cl.deleted_count
    kept_count := cl.kept_count
    filtered_mods := write_filtered_mod_list mods
    exit_code := if st.failed_count > 0 then 1 else 0 }

/-- `main`'s exit status including the two fatal preconditions: missing
credentials and missing `mod-list.json` each exit 1 before any work. -/
def main_exit (creds_ok : Bool) (mod_list_exists : Bool) (catalog : Catalog)
    (fetchOk : FetchOracle) (mods : List ModEntry) (storage0 : List Str) : Nat :=
  if ¬creds_ok then 1
  else if ¬mod_list_exists then 1
  else (full_run catalog fetchOk mods storage0).exit_code

/-- Modelled from the spec (for comparison with the code): the
**DesiredSet**, "derived set of names where DeclaredItem.enabled is true
and name ∉ ExclusionSet", the ExclusionSet being `BASE_GAME_MODS`. -/
def DesiredSet (mods : List ModEntry) : List Str :=
  mods.filterMap fun m =>
    if m.enabled.getD false ∧ m.name.getD [] ∉ BASE_GAME_MODS
    then some (m.name.getD []) else none

/-- The fate of one storage file under the cleanup loop: skipped by the
glob/parse, deleted, or kept (and counted). -/
inductive FileFate
  | untouched
  | deleted
  | kept
deriving DecidableEq

/-- Decision function of the cleanup loop for a single file. -/
def file_fate (enabledNames : List Str) (lvm : List (Str × Str))
    (f : Str) : FileFate :=
  if zipSuffix.isSuffixOf f then
    match parse_mod_filename f with
    | none => .untouched
    | some (mod_name, version) =>
      if mod_name ∉ enabledNames then .deleted
      else
        match lvm.lookup mod_name with
        | some lv => if lv ≠ [] ∧ version ≠ lv then .deleted else .kept
        | none => .kept
  else .untouched

/-- A file survives cleanup iff its fate is not `deleted`. -/
def keep_file (enabledNames : List Str) (lvm : List (Str × Str)) (f : Str) : Bool :=
  decide (file_fate enabledNames lvm f ≠ FileFate.deleted)

/-- The update `process_mod` makes to `latest_versions`, as a function of
the catalog alone. -/
def lvm_update (c : Catalog) (n : Str) (lvm : List (Str × Str)) : List (Str × Str) :=
  match c n with
  | none => lvm
  | some rs =>
    match get_latest_release rs with
    | none => lvm
    | some latest =>
      if release_empty latest then lvm else (n, release_version latest) :: lvm

theorem rsplitUnderscore_eq_none_iff (l : Str) :
    rsplitUnderscore l = none ↔ '_' ∉ l := by
  induction l with
  | nil => simp [rsplitUnderscore]
  | cons c cs ih =>
    simp only [rsplitUnderscore, List.mem_cons]
    cases h : rsplitUnderscore cs with
    | some p =>
      obtain ⟨a, b⟩ := p
      have hmem : '_' ∈ cs := by
        by_contra hm
        simp [ih.mpr hm] at h
      simp [h, hmem]
    | none =>
      have hcs : '_' ∉ cs := ih.mp h
      by_cases hc : c = '_'
      · simp [h, hc]
      · simp [h, hcs, hc, Ne.symm hc]

theorem rsplitUnderscore_append (n v : Str) (hv : '_' ∉ v) :
    rsplitUnderscore (n ++ '_' :: v) = some (n, v) := by
  induction n with
  | nil =>
    simp only [List.nil_append, rsplitUnderscore]
    rw [(rsplitUnderscore_eq_none_iff v).mpr hv]
    simp
  | cons c cs ih =>
    simp only [List.cons_append, rsplitUnderscore, List.append_eq, ih]

theorem rsplitUnderscore_version_no_underscore (l : Str) :
    ∀ p q, rsplitUnderscore l = some (p, q) → '_' ∉ q := by
  induction l with
  | nil => intro p q h; simp [rsplitUnderscore] at h
  | cons c cs ih =>
    intro p q h
    simp only [rsplitUnderscore] at h
    cases hcs : rsplitUnderscore cs with
    | some pr =>
      obtain ⟨pre, post⟩ := pr
      simp only [hcs, Option.some.injEq, Prod.mk.injEq] at h
      exact h.2 ▸ ih pre post hcs
    | none =>
      simp only [hcs] at h
      by_cases hc : c = '_'
      · rw [if_pos hc] at h
        simp only [Option.some.injEq, Prod.mk.injEq] at h
        exact h.2 ▸ (rsplitUnderscore_eq_none_iff cs).mp hcs
      · rw [if_neg hc] at h
        exact absurd h (by simp)

theorem rsplitUnderscore_recover (l : Str) :
    ∀ p q, rsplitUnderscore l = some (p, q) → l = p ++ '_' :: q := by
  induction l with
  | nil => intro p q h; simp [rsplitUnderscore] at h
  | cons c cs ih =>
    intro p q h
    simp only [rsplitUnderscore] at h
    cases hcs : rsplitUnderscore cs with
    | some pr =>
      obtain ⟨pre, post⟩ := pr
      simp only [hcs, Option.some.injEq, Prod.mk.injEq] at h
      rw [← h.1, ← h.2]
      simp [ih pre post hcs]
    | none =>
      simp only [hcs] at h
      by_cases hc : c = '_'
      · rw [if_pos hc] at h
        simp only [Option.some.injEq, Prod.mk.injEq] at h
        rw [← h.1, ← h.2, hc]
        simp
      · rw [if_neg hc] at h
        exact absurd h (by simp)

theorem parse_roundtrip (n v : Str) (hn : n ≠ []) (hv : v ≠ []) (hvu : '_' ∉ v) :
    parse_mod_filename (n ++ '_' :: v ++ zipSuffix) = some (n, v) := by
  have hsuf : zipSuffix.isSuffixOf (n ++ '_' :: v ++ zipSuffix) = true := by
    rw [List.isSuffixOf_iff_suffix]
    exact ⟨n ++ '_' :: v, by simp⟩
  have hlen : (n ++ '_' :: v ++ zipSuffix).length - 4 = (n ++ '_' :: v).length := by
    simp [zipSuffix]
    omega
  have htake : (n ++ '_' :: v ++ zipSuffix).take ((n ++ '_' :: v ++ zipSuffix).length - 4)
      = n ++ '_' :: v := by
    rw [hlen, show n ++ '_' :: v ++ zipSuffix = (n ++ '_' :: v) ++ zipSuffix by simp,
      List.take_left]
  simp only [parse_mod_filename, hsuf, if_pos, htake]
  rw [rsplitUnderscore_append n v hvu]
  simp [hn, hv]

theorem parse_not_zip (f : Str) (h : zipSuffix.isSuffixOf f = false) :
    parse_mod_filename f = none := by
  simp [parse_mod_filename, h]

theorem parse_no_underscore (b : Str) (hb : '_' ∉ b) :
    parse_mod_filename (b ++ zipSuffix) = none := by
  have hsuf : zipSuffix.isSuffixOf (b ++ zipSuffix) = true := by
    rw [List.isSuffixOf_iff_suffix]
    exact ⟨b, rfl⟩
  have htake : (b ++ zipSuffix).take ((b ++ zipSuffix).length - 4) = b := by
    have : (b ++ zipSuffix).length - 4 = b.length := by simp [zipSuffix]
    rw [this, List.take_left]
  simp only [parse_mod_filename, hsuf, if_pos, htake,
    (rsplitUnderscore_eq_none_iff b).mpr hb]

theorem parse_empty_version (n : Str) :
    parse_mod_filename (n ++ ['_'] ++ zipSuffix) = none := by
  have hsuf : zipSuffix.isSuffixOf (n ++ ['_'] ++ zipSuffix) = true := by
    rw [List.isSuffixOf_iff_suffix]
    exact ⟨n ++ ['_'], by simp⟩
  have htake : (n ++ ['_'] ++ zipSuffix).take ((n ++ ['_'] ++ zipSuffix).length - 4)
      = n ++ ['_'] := by
    have : (n ++ ['_'] ++ zipSuffix).length - 4 = (n ++ ['_']).length := by
      simp [zipSuffix]
    rw [this, show n ++ ['_'] ++ zipSuffix = (n ++ ['_']) ++ zipSuffix by simp,
      List.take_left]
  have hsplit : rsplitUnderscore (n ++ ['_']) = some (n, []) := by
    have := rsplitUnderscore_append n [] (by simp)
    simpa using this
  simp only [parse_mod_filename, hsuf, if_pos, htake, hsplit]
  simp

theorem parse_empty_name (v : Str) (hv : '_' ∉ v) :
    parse_mod_filename ('_' :: v ++ zipSuffix) = none := by
  have hsuf : zipSuffix.isSuffixOf ('_' :: v ++ zipSuffix) = true := by
    rw [List.isSuffixOf_iff_suffix]
    exact ⟨'_' :: v, by simp⟩
  have htake : ('_' :: v ++ zipSuffix).take (('_' :: v ++ zipSuffix).length - 4)
      = '_' :: v := by
    have : ('_' :: v ++ zipSuffix).length - 4 = ('_' :: v).length := by simp [zipSuffix]
    rw [this, show '_' :: v ++ zipSuffix = ('_' :: v) ++ zipSuffix from rfl,
      List.take_left]
  have hsplit : rsplitUnderscore ('_' :: v) = some ([], v) := by
    have := rsplitUnderscore_append [] v hv
    simpa using this
  simp only [parse_mod_filename, hsuf, if_pos, htake, hsplit]
  simp

theorem parse_version_no_underscore (f n v : Str)
    (h : parse_mod_filename f = some (n, v)) : '_' ∉ v := by
  simp only [parse_mod_filename] at h
  by_cases hsuf : zipSuffix.isSuffixOf f
  · rw [if_pos hsuf] at h
    cases hsplit : rsplitUnderscore (f.take (f.length - 4)) with
    | none => simp [hsplit] at h
    | some p =>
      obtain ⟨pn, pv⟩ := p
      simp only [hsplit] at h
      by_cases he : pn = [] ∨ pv = []
      · simp [he] at h
      · simp only [if_neg he, Option.some.injEq, Prod.mk.injEq] at h
        exact h.2 ▸ rsplitUnderscore_version_no_underscore _ pn pv hsplit
  · rw [if_neg hsuf] at h
    exact absurd h (by simp)

section ProcessModEquations

variable (c : Catalog) (fk : FetchOracle) (st : RunState) (n : Str)

theorem process_mod_of_lookup_failed (h : c n = none) :
    process_mod c fk st n = { st with failed_count := st.failed_count + 1 } := by
  simp only [process_mod, h]

theorem process_mod_of_no_release (rs : List Release) (h : c n = some rs)
    (h2 : get_latest_release rs = none) :
    process_mod c fk st n = { st with skipped_count := st.skipped_count + 1 } := by
  simp only [process_mod, h, h2]

theorem process_mod_of_empty_release (rs : List Release) (latest : Release)
    (h : c n = some rs) (h2 : get_latest_release rs = some latest)
    (he : release_empty latest = true) :
    process_mod c fk st n = { st with skipped_count := st.skipped_count + 1 } := by
  simp only [process_mod, h, h2, he]
  simp

theorem process_mod_of_skip (rs : List Release) (latest : Release)
    (h : c n = some rs) (h2 : get_latest_release rs = some latest)
    (hne : release_empty latest = false)
    (h3 : target_filename n latest ∈ st.storage) :
    process_mod c fk st n =
      { st with latest_versions := (n, release_version latest) :: st.latest_versions,
                skipped_count := st.skipped_count + 1 } := by
  simp only [process_mod, h, h2, hne]
  simp [h3]

theorem process_mod_of_fetch_ok (rs : List Release) (latest : Release)
    (h : c n = some rs) (h2 : get_latest_release rs = some latest)
    (hne : release_empty latest = false)
    (h3 : target_filename n latest ∉ st.storage)
    (h4 : fk (target_filename n latest) = true) :
    process_mod c fk st n =
      { st with latest_versions := (n, release_version latest) :: st.latest_versions,
                downloads := st.downloads ++ [target_filename n latest],
                storage := st.storage ++ [target_filename n latest],
                success_count := st.success_count + 1 } := by
  simp only [process_mod, h, h2, hne]
  simp [h3, h4]

theorem process_mod_of_fetch_fail (rs : List Release) (latest : Release)
    (h : c n = some rs) (h2 : get_latest_release rs = some latest)
    (hne : release_empty latest = false)
    (h3 : target_filename n latest ∉ st.storage)
    (h4 : fk (target_filename n latest) = false) :
    process_mod c fk st n =
      { st with latest_versions := (n, release_version latest) :: st.latest_versions,
                downloads := st.downloads ++ [target_filename n latest],
                failed_count := st.failed_count + 1 } := by
  simp only [process_mod, h, h2, hne]
  simp [h3, h4]

/-- `process_mod` only ever appends to storage. -/
theorem process_mod_storage_extends :
    ∃ l, (process_mod c fk st n).storage = st.storage ++ l := by
  cases hc : c n with
  | none => exact ⟨[], by rw [process_mod_of_lookup_failed c fk st n hc]; simp⟩
  | some rs =>
    cases h2 : get_latest_release rs with
    | none => exact ⟨[], by rw [process_mod_of_no_release c fk st n rs hc h2]; simp⟩
    | some latest =>
      cases he : release_empty latest with
      | true =>
        exact ⟨[],
          by rw [process_mod_of_empty_release c fk st n rs latest hc h2 he]; simp⟩
      | false =>
        by_cases h3 : target_filename n latest ∈ st.storage
        · exact ⟨[], by rw [process_mod_of_skip c fk st n rs latest hc h2 he h3]; simp⟩
        · cases h4 : fk (target_filename n latest) with
          | true =>
            exact ⟨[target_filename n latest],
              by rw [process_mod_of_fetch_ok c fk st n rs latest hc h2 he h3 h4]⟩
          | false =>
            exact ⟨[],
              by rw [process_mod_of_fetch_fail c fk st n rs latest hc h2 he h3 h4]; simp⟩

/-- The `latest_versions` update depends only on the catalog and the
previous map. -/
theorem process_mod_lvm :
    (process_mod c fk st n).latest_versions = lvm_update c n st.latest_versions := by
  cases hc : c n with
  | none => simp [process_mod_of_lookup_failed c fk st n hc, lvm_update, hc]
  | some rs =>
    cases h2 : get_latest_release rs with
    | none => simp [process_mod_of_no_release c fk st n rs hc h2, lvm_update, hc, h2]
    | some latest =>
      cases he : release_empty latest with
      | true => simp [process_mod_of_empty_release c fk st n rs latest hc h2 he,
          lvm_update, hc, h2, he]
      | false =>
        by_cases h3 : target_filename n latest ∈ st.storage
        · simp [process_mod_of_skip c fk st n rs latest hc h2 he h3,
            lvm_update, hc, h2, he]
        · cases h4 : fk (target_filename n latest) with
          | true => simp [process_mod_of_fetch_ok c fk st n rs latest hc h2 he h3 h4,
              lvm_update, hc, h2, he]
          | false => simp [process_mod_of_fetch_fail c fk st n rs latest hc h2 he h3 h4,
              lvm_update, hc, h2, he]

/-- Every `process_mod` step settles exactly one item: the three counters
together grow by exactly one. -/
theorem process_mod_counts :
    (process_mod c fk st n).success_count + (process_mod c fk st n).skipped_count
      + (process_mod c fk st n).failed_count
    = st.success_count + st.skipped_count + st.failed_count + 1 := by
  cases hc : c n with
  | none => rw [process_mod_of_lookup_failed c fk st n hc]; dsimp only; omega
  | some rs =>
    cases h2 : get_latest_release rs with
    | none => rw [process_mod_of_no_release c fk st n rs hc h2]; dsimp only; omega
    | some latest =>
      cases he : release_empty latest with
      | true => rw [process_mod_of_empty_release c fk st n rs latest hc h2 he]
                dsimp only; omega
      | false =>
        by_cases h3 : target_filename n latest ∈ st.storage
        · rw [process_mod_of_skip c fk st n rs latest hc h2 he h3]; dsimp only; omega
        · cases h4 : fk (target_filename n latest) with
          | true => rw [process_mod_of_fetch_ok c fk st n rs latest hc h2 he h3 h4]
                    dsimp only; omega
          | false => rw [process_mod_of_fetch_fail c fk st n rs latest hc h2 he h3 h4]
                     dsimp only; omega

end ProcessModEquations

theorem cleanup_step_fate (en : List Str) (lvm : List (Str × Str))
    (acc : CleanupResult) (f : Str) :
    cleanup_step en lvm acc f =
      match file_fate en lvm f with
      | .untouched => { acc with remaining := acc.remaining ++ [f] }
      | .deleted => { acc with deleted_count := acc.deleted_count + 1 }
      | .kept => { acc with remaining := acc.remaining ++ [f],
                            kept_count := acc.kept_count + 1 } := by
  by_cases h1 : zipSuffix.isSuffixOf f
  · cases hp : parse_mod_filename f with
    | none => simp [cleanup_step, file_fate, h1, hp]
    | some p =>
      obtain ⟨mn, v⟩ := p
      by_cases h2 : mn ∉ en
      · simp [cleanup_step, file_fate, h1, hp, h2]
      · cases hl : lvm.lookup mn with
        | none => simp [cleanup_step, file_fate, h1, hp, h2, hl]
        | some lv =>
          by_cases h3 : lv ≠ [] ∧ v ≠ lv
          · simp only [cleanup_step, file_fate, if_pos h1, hp, if_neg h2, hl,
              if_pos h3]
          · simp only [cleanup_step, file_fate, if_pos h1, hp, if_neg h2, hl,
              if_neg h3]
  · simp [cleanup_step, file_fate, h1]

theorem cleanup_foldl (en : List Str) (lvm : List (Str × Str)) (storage : List Str) :
    ∀ acc : CleanupResult,
    List.foldl (cleanup_step en lvm) acc storage =
      { remaining := acc.remaining ++ storage.filter (keep_file en lvm),
        deleted_count := acc.deleted_count
          + storage.countP (fun f => decide (file_fate en lvm f = FileFate.deleted)),
        kept_count := acc.kept_count
          + storage.countP (fun f => decide (file_fate en lvm f = FileFate.kept)) } := by
  induction storage with
  | nil => intro acc; simp
  | cons f rest ih =>
    intro acc
    rw [List.foldl_cons, cleanup_step_fate]
    cases hf : file_fate en lvm f with
    | untouched =>
      rw [ih]
      simp [List.filter_cons, List.countP_cons, keep_file, hf]
    | deleted =>
      rw [ih]
      simp [List.filter_cons, List.countP_cons, keep_file, hf]
      omega
    | kept =>
      rw [ih]
      simp [List.filter_cons, List.countP_cons, keep_file, hf]
      omega

theorem cleanup_old_mods_eq (en : List Str) (lvm : List (Str × Str))
    (storage : List Str) :
    cleanup_old_mods en lvm storage =
      { remaining := storage.filter (keep_file en lvm),
        deleted_count :=
          storage.countP (fun f => decide (file_fate en lvm f = FileFate.deleted)),
        kept_count :=
          storage.countP (fun f => decide (file_fate en lvm f = FileFate.kept)) } := by
  rw [cleanup_old_mods, cleanup_foldl]
  simp

theorem foldl_process_storage_mono (c : Catalog) (fk : FetchOracle) (names : List Str) :
    ∀ st x, x ∈ st.storage → x ∈ (List.foldl (process_mod c fk) st names).storage := by
  induction names with
  | nil => intro st x hx; simpa using hx
  | cons m rest ih =>
    intro st x hx
    rw [List.foldl_cons]
    apply ih
    obtain ⟨l, hl⟩ := process_mod_storage_extends c fk st m
    rw [hl]
    exact List.mem_append_left _ hx

theorem foldl_process_lvm (c : Catalog) (fk : FetchOracle) (names : List Str) :
    ∀ st, (List.foldl (process_mod c fk) st names).latest_versions
      = List.foldl (fun acc m => lvm_update c m acc) st.latest_versions names := by
  induction names with
  | nil => intro st; rfl
  | cons m rest ih =>
    intro st
    rw [List.foldl_cons, List.foldl_cons, ih, process_mod_lvm]

theorem foldl_process_target_mem (c : Catalog) (fk : FetchOracle)
    (hfk : ∀ f, fk f = true) (names : List Str) :
    ∀ st n, n ∈ names → ∀ rs latest, c n = some rs →
      get_latest_release rs = some latest → release_empty latest = false →
      target_filename n latest ∈ (List.foldl (process_mod c fk) st names).storage := by
  induction names with
  | nil => intro st n hn; simp at hn
  | cons m rest ih =>
    intro st n hn rs latest hc h2 hne
    rw [List.foldl_cons]
    rcases List.mem_cons.mp hn with rfl | hmem
    · apply foldl_process_storage_mono
      by_cases h3 : target_filename n latest ∈ st.storage
      · rw [process_mod_of_skip c fk st n rs latest hc h2 hne h3]
        exact h3
      · rw [process_mod_of_fetch_ok c fk st n rs latest hc h2 hne h3 (hfk _)]
        exact List.mem_append_right _ (by simp)
    · exact ih _ n hmem rs latest hc h2 hne

theorem foldl_process_all_skip (c : Catalog) (fk : FetchOracle) (names : List Str) :
    ∀ st, (∀ n ∈ names, ∀ rs latest, c n = some rs →
        get_latest_release rs = some latest → release_empty latest = false →
        target_filename n latest ∈ st.storage) →
      (List.foldl (process_mod c fk) st names).storage = st.storage
      ∧ (List.foldl (process_mod c fk) st names).downloads = st.downloads := by
  induction names with
  | nil => intro st _; exact ⟨rfl, rfl⟩
  | cons m rest ih =>
    intro st h
    rw [List.foldl_cons]
    have hstep : (process_mod c fk st m).storage = st.storage
        ∧ (process_mod c fk st m).downloads = st.downloads := by
      cases hc : c m with
      | none => rw [process_mod_of_lookup_failed c fk st m hc]; exact ⟨rfl, rfl⟩
      | some rs =>
        cases h2 : get_latest_release rs with
        | none => rw [process_mod_of_no_release c fk st m rs hc h2]; exact ⟨rfl, rfl⟩
        | some latest =>
          cases he : release_empty latest with
          | true =>
            rw [process_mod_of_empty_release c fk st m rs latest hc h2 he]
            exact ⟨rfl, rfl⟩
          | false =>
            have h3 := h m (by simp) rs latest hc h2 he
            rw [process_mod_of_skip c fk st m rs latest hc h2 he h3]
            exact ⟨rfl, rfl⟩
    have hrest := ih (process_mod c fk st m) (fun n hn rs latest hc h2 hne => by
      rw [hstep.1]
      exact h n (by simp [hn]) rs latest hc h2 hne)
    exact ⟨hrest.1.trans hstep.1, hrest.2.trans hstep.2⟩

theorem foldl_process_counts (c : Catalog) (fk : FetchOracle) (names : List Str) :
    ∀ st, (List.foldl (process_mod c fk) st names).success_count
        + (List.foldl (process_mod c fk) st names).skipped_count
        + (List.foldl (process_mod c fk) st names).failed_count
      = st.success_count + st.skipped_count + st.failed_count + names.length := by
  induction names with
  | nil => intro st; simp
  | cons m rest ih =>
    intro st
    rw [List.foldl_cons, ih]
    have := process_mod_counts c fk st m
    simp only [List.length_cons]
    omega

theorem lookup_eq_none_of_forall (n : Str) (l : List (Str × Str))
    (h : ∀ p ∈ l, p.1 ≠ n) : l.lookup n = none := by
  induction l with
  | nil => rfl
  | cons p rest ih =>
    obtain ⟨k, v⟩ := p
    have hk : k ≠ n := h (k, v) (by simp)
    have hkb : (n == k) = false := by
      simp [beq_iff_eq]
      exact fun hh => hk hh.symm
    simp only [List.lookup, hkb]
    exact ih fun q hq => h q (by simp [hq])

theorem foldl_lvm_update_keys (c : Catalog) (names : List Str) :
    ∀ acc (p : Str × Str),
      p ∈ List.foldl (fun a m => lvm_update c m a) acc names →
      p ∈ acc ∨ p.1 ∈ names := by
  induction names with
  | nil => intro acc p hp; exact Or.inl hp
  | cons m rest ih =>
    intro acc p hp
    rw [List.foldl_cons] at hp
    rcases ih _ p hp with h | h
    · rw [lvm_update] at h
      cases hcm : c m with
      | none => rw [hcm] at h; exact Or.inl h
      | some rs =>
        rw [hcm] at h
        cases h2 : get_latest_release rs with
        | none => simp only [h2] at h; exact Or.inl h
        | some latest =>
          simp only [h2] at h
          cases he : release_empty latest with
          | true => rw [if_pos he] at h; exact Or.inl h
          | false =>
            rw [if_neg (by simp [he])] at h
            rcases List.mem_cons.mp h with h | h
            · exact Or.inr (by simp [h])
            · exact Or.inl h
    · exact Or.inr (by simp [h])

/-- Names produced by `get_enabled_mods` are never base game mods. -/
theorem mem_get_enabled_mods_not_base (mods : List ModEntry) (x : Str)
    (hx : x ∈ get_enabled_mods mods) : x ∉ BASE_GAME_MODS := by
  rw [get_enabled_mods, List.mem_filterMap] at hx
  obtain ⟨m, -, hm⟩ := hx
  by_cases hcond : m.enabled.getD false ∧ m.name.getD [] ∉ BASE_GAME_MODS
  · rw [if_pos hcond] at hm
    cases hm
    exact hcond.2
  · rw [if_neg hcond] at hm
    cases hm

/-- A parsed file name necessarily carries the `.zip` suffix. -/
theorem parse_some_isZip (f : Str) (p : Str × Str)
    (h : parse_mod_filename f = some p) : zipSuffix.isSuffixOf f = true := by
  cases hs : zipSuffix.isSuffixOf f with
  | true => rfl
  | false =>
    rw [parse_mod_filename] at h
    simp [hs] at h

/-- A parsed file survives cleanup iff its name is enabled and its version
is unchallenged: no map entry, an empty-string map entry, or a matching
one. -/
theorem keep_file_iff (en : List Str) (lvm : List (Str × Str)) (f n v : Str)
    (hparse : parse_mod_filename f = some (n, v)) :
    keep_file en lvm f = true ↔
      (n ∈ en ∧ (lvm.lookup n = none ∨ lvm.lookup n = some []
        ∨ lvm.lookup n = some v)) := by
  have hzip := parse_some_isZip f (n, v) hparse
  rw [keep_file, decide_eq_true_iff]
  rw [file_fate, if_pos (by simp [hzip]), hparse]
  dsimp only
  by_cases hen : n ∈ en
  · rw [if_neg (by simpa using hen)]
    cases hl : lvm.lookup n with
    | none => simp [hen]
    | some lv =>
      dsimp only
      by_cases hlv : lv ≠ [] ∧ v ≠ lv
      · rw [if_pos hlv]
        simp only [hen, true_and]
        constructor
        · intro hh; exact absurd rfl hh
        · rintro (hh | hh | hh)
          · cases hh
          · exact absurd (Option.some.inj hh) hlv.1
          · exact absurd (Option.some.inj hh).symm hlv.2
      · rw [if_neg hlv]
        simp only [hen, true_and]
        constructor
        · intro _
          rcases Decidable.not_and_iff_or_not.mp hlv with hh | hh
          · exact Or.inr (Or.inl (by simp [Decidable.not_not.mp hh]))
          · exact Or.inr (Or.inr (by simp [(Decidable.not_not.mp hh).symm]))
        · intro _
          simp
  · rw [if_pos (by simpa using hen)]
    simp [hen]

/-- Membership in the cleanup survivors, for parsed files. -/
theorem mem_cleanup_remaining_iff (en : List Str) (lvm : List (Str × Str))
    (storage : List Str) (f n v : Str)
    (hparse : parse_mod_filename f = some (n, v)) (hmem : f ∈ storage) :
    f ∈ (cleanup_old_mods en lvm storage).remaining ↔
      (n ∈ en ∧ (lvm.lookup n = none ∨ lvm.lookup n = some []
        ∨ lvm.lookup n = some v)) := by
  rw [cleanup_old_mods_eq]
  dsimp only
  rw [List.mem_filter]
  rw [← keep_file_iff en lvm f n v hparse]
  simp [hmem]

theorem full_run_storage (c : Catalog) (fk : FetchOracle) (mods : List ModEntry)
    (s0 : List Str) :
    (full_run c fk mods s0).storage
      = (cleanup_old_mods (get_enabled_mod_names mods)
          (download_phase c fk mods s0).latest_versions
          (download_phase c fk mods s0).storage).remaining := by
  rw [full_run]

theorem full_run_lvm (c : Catalog) (fk : FetchOracle) (mods : List ModEntry)
    (s0 : List Str) :
    (full_run c fk mods s0).latest_versions
      = (download_phase c fk mods s0).latest_versions := by
  rw [full_run]

theorem full_run_deleted (c : Catalog) (fk : FetchOracle) (mods : List ModEntry)
    (s0 : List Str) :
    (full_run c fk mods s0).deleted_count
      = (cleanup_old_mods (get_enabled_mod_names mods)
          (download_phase c fk mods s0).latest_versions
          (download_phase c fk mods s0).storage).deleted_count := by
  rw [full_run]

theorem full_run_downloads (c : Catalog) (fk : FetchOracle) (mods : List ModEntry)
    (s0 : List Str) :
    (full_run c fk mods s0).downloads = (download_phase c fk mods s0).downloads := by
  rw [full_run]

theorem full_run_failed (c : Catalog) (fk : FetchOracle) (mods : List ModEntry)
    (s0 : List Str) :
    (full_run c fk mods s0).failed_count
      = (download_phase c fk mods s0).failed_count := by
  rw [full_run]

theorem full_run_counts (c : Catalog) (fk : FetchOracle) (mods : List ModEntry)
    (s0 : List Str) :
    (full_run c fk mods s0).success_count + (full_run c fk mods s0).skipped_count
        + (full_run c fk mods s0).failed_count
      = (get_enabled_mods mods).length := by
  have h := foldl_process_counts c fk (get_enabled_mods mods) (init_state s0)
  rw [full_run]
  dsimp only
  rw [download_phase]
  rw [h]
  simp [init_state]

theorem full_run_exit (c : Catalog) (fk : FetchOracle) (mods : List ModEntry)
    (s0 : List Str) :
    (full_run c fk mods s0).exit_code
      = if (download_phase c fk mods s0).failed_count > 0 then 1 else 0 := by
  rw [full_run]

/-- Claim C5: a successful lookup with a non-empty releases sequence
selects exactly the last element; with an empty sequence the item ends in
Skipped(NoRelease): only the skip counter changes, so no LatestVersionMap
entry is added and no file is created or downloaded. -/
theorem claim_C5_latest_is_last :
    (∀ rs : List Release, rs ≠ [] → get_latest_release rs = rs.getLast?)
    ∧ (∀ (c : Catalog) (fk : FetchOracle) (st : RunState) (n : Str),
        c n = some [] →
        process_mod c fk st n = { st with skipped_count := st.skipped_count + 1 }) := by
  constructor
  · intro rs h
    rw [get_latest_release, dif_neg h, List.getLast?_eq_getLast rs h]
  · intro c fk st n h
    exact process_mod_of_no_release c fk st n [] h (by simp [get_latest_release])

/-- Witness for C5 at a two-release catalog answer and at an empty one. -/
theorem claim_C5_witness :
    get_latest_release [⟨some "1.0".toList, none, none, false⟩, ⟨some "2.0".toList, none, none, false⟩]
      = [(⟨some "1.0".toList, none, none, false⟩ : Release),
         ⟨some "2.0".toList, none, none, false⟩].getLast?
    ∧ process_mod (fun _ => some []) (fun _ => true) (init_state []) "a".toList
      = { init_state [] with
            skipped_count := (init_state []).skipped_count + 1 } :=
  ⟨claim_C5_latest_is_last.1 _ (by simp),
   claim_C5_latest_is_last.2 _ _ _ _ rfl⟩

/-- Claim C6: the exit status is zero iff credentials were present, the
declaration document existed and no item failed; and the run settles every
desired item (the three counters always sum to the desired-item count, so
per-item failures never abort the loop). -/
theorem claim_C6_exit_status (creds_ok mod_list_exists : Bool) (c : Catalog)
    (fk : FetchOracle) (mods : List ModEntry) (storage0 : List Str) :
    (main_exit creds_ok mod_list_exists c fk mods storage0 = 0 ↔
      creds_ok = true ∧ mod_list_exists = true
        ∧ (full_run c fk mods storage0).failed_count = 0)
    ∧ (full_run c fk mods storage0).success_count
        + (full_run c fk mods storage0).skipped_count
        + (full_run c fk mods storage0).failed_count
      = (get_enabled_mods mods).length := by
  refine ⟨?_, full_run_counts c fk mods storage0⟩
  rw [main_exit]
  cases creds_ok with
  | false => simp
  | true =>
    cases mod_list_exists with
    | false => simp
    | true =>
      simp only [Bool.not_true]
      rw [if_neg (by simp), if_neg (by simp), full_run_exit, full_run_failed]
      by_cases h : (download_phase c fk mods storage0).failed_count = 0
      · simp [h]
      · simp [h, Nat.pos_of_ne_zero h]

/-- Claim C7: a `.zip` file whose name does not parse is never deleted by
cleanup and contributes to neither the kept nor the deleted counter. -/
theorem claim_C7_malformed_inert (en : List Str) (lvm : List (Str × Str))
    (s1 s2 : List Str) (f : Str)
    (hzip : zipSuffix.isSuffixOf f = true)
    (hparse : parse_mod_filename f = none) :
    f ∈ (cleanup_old_mods en lvm (s1 ++ f :: s2)).remaining
    ∧ (cleanup_old_mods en lvm (s1 ++ f :: s2)).deleted_count
        = (cleanup_old_mods en lvm (s1 ++ s2)).deleted_count
    ∧ (cleanup_old_mods en lvm (s1 ++ f :: s2)).kept_count
        = (cleanup_old_mods en lvm (s1 ++ s2)).kept_count := by
  have hfate : file_fate en lvm f = FileFate.untouched := by
    rw [file_fate, if_pos (by simp [hzip]), hparse]
  rw [cleanup_old_mods_eq, cleanup_old_mods_eq]
  dsimp only
  refine ⟨?_, ?_, ?_⟩
  · exact List.mem_filter.mpr ⟨by simp, by simp [keep_file, hfate]⟩
  · simp [List.countP_append, List.countP_cons, hfate]
  · simp [List.countP_append, List.countP_cons, hfate]

/-- Witness for C7: `noversion.zip` is inert among two well-formed files. -/
theorem claim_C7_witness :
    "noversion.zip".toList ∈ (cleanup_old_mods [] []
        (["a_1.zip".toList] ++ "noversion.zip".toList :: ["b_2.zip".toList])).remaining
    ∧ (cleanup_old_mods [] []
        (["a_1.zip".toList] ++ "noversion.zip".toList :: ["b_2.zip".toList])).deleted_count
      = (cleanup_old_mods [] [] (["a_1.zip".toList] ++ ["b_2.zip".toList])).deleted_count
    ∧ (cleanup_old_mods [] []
        (["a_1.zip".toList] ++ "noversion.zip".toList :: ["b_2.zip".toList])).kept_count
      = (cleanup_old_mods [] [] (["a_1.zip".toList] ++ ["b_2.zip".toList])).kept_count :=
  claim_C7_malformed_inert [] [] ["a_1.zip".toList] ["b_2.zip".toList]
    "noversion.zip".toList (by decide) (by decide)

/-- Claim C8: the naming convention round-trips (split at the last
underscore, so the name may contain underscores and the version never
does), and file names without the suffix, without an underscore, or with
an empty name or version part parse to nothing. -/
theorem claim_C8_parse_roundtrip :
    (∀ n v : Str, n ≠ [] → v ≠ [] → '_' ∉ v →
        parse_mod_filename (n ++ '_' :: v ++ zipSuffix) = some (n, v))
    ∧ (∀ f n v : Str, parse_mod_filename f = some (n, v) → '_' ∉ v)
    ∧ (∀ f : Str, zipSuffix.isSuffixOf f = false → parse_mod_filename f = none)
    ∧ (∀ b : Str, '_' ∉ b → parse_mod_filename (b ++ zipSuffix) = none)
    ∧ (∀ n : Str, parse_mod_filename (n ++ ['_'] ++ zipSuffix) = none)
    ∧ (∀ v : Str, '_' ∉ v → parse_mod_filename ('_' :: v ++ zipSuffix) = none) :=
  ⟨parse_roundtrip, parse_version_no_underscore, parse_not_zip,
   parse_no_underscore, parse_empty_version, parse_empty_name⟩

/-- Witness for C8: an underscored name round-trips; an empty version does
not parse. -/
theorem claim_C8_witness :
    parse_mod_filename ("my_mod".toList ++ '_' :: "1.2.3".toList ++ zipSuffix)
      = some ("my_mod".toList, "1.2.3".toList)
    ∧ parse_mod_filename ("archive".toList ++ ['_'] ++ zipSuffix) = none :=
  ⟨claim_C8_parse_roundtrip.1 "my_mod".toList "1.2.3".toList (by decide) (by decide)
      (by decide),
   claim_C8_parse_roundtrip.2.2.2.2.1 "archive".toList⟩

/-- Claim C9: an entry without the `enabled` field behaves exactly like one
declared disabled, in the fetch sequence, in the retention name set and in
the filtered output; an entry without the `name` field behaves exactly like
one named by the empty string. -/
theorem claim_C9_missing_fields (ml1 ml2 : List ModEntry) (m : ModEntry) :
    (m.enabled = none →
      get_enabled_mods (ml1 ++ m :: ml2)
        = get_enabled_mods (ml1 ++ ⟨m.name, some false⟩ :: ml2)
      ∧ get_enabled_mod_names (ml1 ++ m :: ml2)
        = get_enabled_mod_names (ml1 ++ ⟨m.name, some false⟩ :: ml2)
      ∧ write_filtered_mod_list (ml1 ++ m :: ml2)
        = write_filtered_mod_list (ml1 ++ ⟨m.name, some false⟩ :: ml2))
    ∧ (m.name = none →
      get_enabled_mods (ml1 ++ m :: ml2)
        = get_enabled_mods (ml1 ++ ⟨some [], m.enabled⟩ :: ml2)
      ∧ get_enabled_mod_names (ml1 ++ m :: ml2)
        = get_enabled_mod_names (ml1 ++ ⟨some [], m.enabled⟩ :: ml2)) := by
  obtain ⟨mn, me⟩ := m
  constructor
  · intro h
    simp only at h
    subst h
    refine ⟨?_, ?_, ?_⟩
    · simp [get_enabled_mods, List.filterMap_append, List.filterMap_cons]
    · simp [get_enabled_mod_names, List.filterMap_append, List.filterMap_cons]
    · simp [write_filtered_mod_list, List.filter_append, List.filter_cons]
  · intro h
    simp only at h
    subst h
    constructor
    · simp [get_enabled_mods, List.filterMap_append, List.filterMap_cons]
    · simp [get_enabled_mod_names, List.filterMap_append, List.filterMap_cons]

/-- Witness for C9 at a concrete declaration. -/
theorem claim_C9_witness :
    (get_enabled_mods [⟨some "a".toList, some true⟩, ⟨some "b".toList, none⟩]
      = get_enabled_mods [⟨some "a".toList, some true⟩, ⟨some "b".toList, some false⟩]
    ∧ get_enabled_mod_names [⟨some "a".toList, some true⟩, ⟨some "b".toList, none⟩]
      = get_enabled_mod_names
          [⟨some "a".toList, some true⟩, ⟨some "b".toList, some false⟩]
    ∧ write_filtered_mod_list [⟨some "a".toList, some true⟩, ⟨some "b".toList, none⟩]
      = write_filtered_mod_list
          [⟨some "a".toList, some true⟩, ⟨some "b".toList, some false⟩]) :=
  claim_C9_missing_fields [⟨some "a".toList, some true⟩] []
    ⟨some "b".toList, none⟩ |>.1 rfl

/-- Claim C10 counterexample: the selected latest release is the empty
object — it omits its version field — yet the program takes the
`if not latest` branch: the item is skipped, nothing is recorded in
LatestVersionMap, and nothing is fetched, contradicting the claim that
"unknown" is recorded whenever the version field is absent. -/
theorem claim_C10_counterexample :
    (⟨none, none, none, false⟩ : Release).version = none
    ∧ process_mod (fun _ => some [⟨none, none, none, false⟩]) (fun _ => true)
        (init_state []) "a".toList
      = { init_state [] with skipped_count := (init_state []).skipped_count + 1 }
    ∧ (full_run (fun _ => some [⟨none, none, none, false⟩]) (fun _ => true)
        [⟨some "a".toList, some true⟩] []).latest_versions.lookup "a".toList
      = none
    ∧ (full_run (fun _ => some [⟨none, none, none, false⟩]) (fun _ => true)
        [⟨some "a".toList, some true⟩] []).downloads = [] :=
  ⟨rfl, by decide, by decide, by decide⟩

/-- Claim C10 amended: if the selected latest release omits its version
field but is not the empty object (some other key keeps it truthy), the
run records the literal "unknown" in LatestVersionMap and, when the file
name is also absent, targets `name_unknown.zip`; artifacts of that name
with any other version are then stale-deleted.  A selected release that is
the empty object is instead skipped with no map entry. -/
theorem claim_C10_unknown_version (c : Catalog) (fk : FetchOracle) (st : RunState)
    (n : Str) (rs : List Release) (latest : Release)
    (hc : c n = some rs) (hlast : get_latest_release rs = some latest)
    (hv : latest.version = none) (hf : latest.file_name = none)
    (hne : release_empty latest = false) :
    (process_mod c fk st n).latest_versions
      = (n, "unknown".toList) :: st.latest_versions
    ∧ target_filename n latest = n ++ '_' :: "unknown".toList ++ zipSuffix
    ∧ (∀ (en : List Str) (lvm : List (Str × Str)) (storage : List Str) (f v : Str),
        parse_mod_filename f = some (n, v) → v ≠ "unknown".toList →
        n ∈ en → lvm.lookup n = some "unknown".toList → f ∈ storage →
        f ∉ (cleanup_old_mods en lvm storage).remaining)
    ∧ (∀ (st2 : RunState) (m : Str) (rs2 : List Release) (latest2 : Release),
        c m = some rs2 → get_latest_release rs2 = some latest2 →
        release_empty latest2 = true →
        process_mod c fk st2 m
          = { st2 with skipped_count := st2.skipped_count + 1 }) := by
  refine ⟨?_, ?_, ?_, ?_⟩
  · rw [process_mod_lvm]
    simp [lvm_update, hc, hlast, hne, release_version, hv]
  · simp [target_filename, hf, release_version, hv]
  · intro en lvm storage f v hparse hv2 hen hl hmem
    rw [mem_cleanup_remaining_iff en lvm storage f n v hparse hmem]
    rintro ⟨-, hcase | hcase | hcase⟩
    · rw [hl] at hcase; cases hcase
    · rw [hl] at hcase
      exact absurd hcase (by decide)
    · rw [hl] at hcase
      exact hv2 (Option.some.inj hcase).symm
  · intro st2 m rs2 latest2 hc2 hl2 he2
    exact process_mod_of_empty_release c fk st2 m rs2 latest2 hc2 hl2 he2

/-- Witness for the amended C10: for `a` the selected release carries only
a download URL (truthy; version and file name absent), so "unknown" is
recorded and `a_unknown.zip` targeted and a stale `a_1.0.zip` deleted; for
`b` the selected release is the empty object and the item is skipped. -/
theorem claim_C10_witness :
    (process_mod
        (fun nm => if nm = "a".toList
          then some [⟨none, some "/d/a".toList, none, false⟩]
          else some [⟨none, none, none, false⟩])
        (fun _ => true) (init_state []) "a".toList).latest_versions
      = ("a".toList, "unknown".toList) :: (init_state []).latest_versions
    ∧ target_filename "a".toList ⟨none, some "/d/a".toList, none, false⟩
      = "a".toList ++ '_' :: "unknown".toList ++ zipSuffix
    ∧ "a_1.0.zip".toList ∉ (cleanup_old_mods ["a".toList]
        [("a".toList, "unknown".toList)] ["a_1.0.zip".toList]).remaining
    ∧ process_mod
        (fun nm => if nm = "a".toList
          then some [⟨none, some "/d/a".toList, none, false⟩]
          else some [⟨none, none, none, false⟩])
        (fun _ => true) (init_state []) "b".toList
      = { init_state [] with
            skipped_count := (init_state []).skipped_count + 1 } := by
  have h := claim_C10_unknown_version
    (fun nm => if nm = "a".toList
      then some [⟨none, some "/d/a".toList, none, false⟩]
      else some [⟨none, none, none, false⟩])
    (fun _ => true) (init_state []) "a".toList
    [⟨none, some "/d/a".toList, none, false⟩]
    ⟨none, some "/d/a".toList, none, false⟩
    (by decide) (by decide) rfl rfl (by decide)
  exact ⟨h.1, h.2.1,
    h.2.2.1 ["a".toList] [("a".toList, "unknown".toList)] ["a_1.0.zip".toList]
      "a_1.0.zip".toList "1.0".toList (by decide) (by decide) (by decide)
      (by decide) (by decide),
    h.2.2.2 (init_state []) "b".toList [⟨none, none, none, false⟩]
      ⟨none, none, none, false⟩ (by decide) (by decide) (by decide)⟩

/-- Claim C1 counterexample: `base` declared enabled is not in the
DesiredSet (it is excluded as a base game mod), yet after a complete run
its artifact is retained — the code keys retention on the full
enabled-name set, not on the DesiredSet. -/
theorem claim_C1_counterexample :
    (full_run (fun _ => none) (fun _ => true)
        [⟨some "base".toList, some true⟩] ["base_1.0.zip".toList]).storage
      = ["base_1.0.zip".toList]
    ∧ parse_mod_filename "base_1.0.zip".toList
      = some ("base".toList, "1.0".toList)
    ∧ "base".toList ∉ DesiredSet [⟨some "base".toList, some true⟩] :=
  ⟨by decide, by decide, by decide⟩

/-- Claim C1 amended: after a complete run, a parsed artifact present when
cleanup starts is retained iff its name is in the full enabled-name set
(declared enabled, ExclusionSet members included) and its name is absent
from LatestVersionMap, or recorded there as the empty string, or its
version equals the recorded one. -/
theorem claim_C1_retention (c : Catalog) (fk : FetchOracle)
    (mods : List ModEntry) (storage0 : List Str) (f n v : Str)
    (hparse : parse_mod_filename f = some (n, v))
    (hmem : f ∈ (download_phase c fk mods storage0).storage) :
    f ∈ (full_run c fk mods storage0).storage ↔
      (n ∈ get_enabled_mod_names mods
        ∧ ((full_run c fk mods storage0).latest_versions.lookup n = none
          ∨ (full_run c fk mods storage0).latest_versions.lookup n = some []
          ∨ (full_run c fk mods storage0).latest_versions.lookup n = some v)) := by
  rw [full_run_storage, full_run_lvm]
  exact mem_cleanup_remaining_iff _ _ _ f n v hparse hmem

/-- Witness for the amended C1 on a one-mod run that downloads `a_1.0.zip`
and keeps it. -/
theorem claim_C1_witness :
    "a_1.0.zip".toList ∈ (full_run
        (fun nm => if nm = "a".toList
          then some [⟨some "1.0".toList, none, none, false⟩] else none)
        (fun _ => true) [⟨some "a".toList, some true⟩] []).storage ↔
      ("a".toList ∈ get_enabled_mod_names [⟨some "a".toList, some true⟩]
        ∧ ((full_run
            (fun nm => if nm = "a".toList
              then some [⟨some "1.0".toList, none, none, false⟩] else none)
            (fun _ => true) [⟨some "a".toList, some true⟩]
            []).latest_versions.lookup "a".toList = none
          ∨ (full_run
              (fun nm => if nm = "a".toList
                then some [⟨some "1.0".toList, none, none, false⟩] else none)
              (fun _ => true) [⟨some "a".toList, some true⟩]
              []).latest_versions.lookup "a".toList = some []
          ∨ (full_run
              (fun nm => if nm = "a".toList
                then some [⟨some "1.0".toList, none, none, false⟩] else none)
              (fun _ => true) [⟨some "a".toList, some true⟩]
              []).latest_versions.lookup "a".toList = some "1.0".toList)) :=
  claim_C1_retention _ _ _ _ _ _ _ (by decide) (by decide)

/-- Claim C2 counterexample: the catalog reports an empty version string
for `a`, so `a` is present in LatestVersionMap with a recorded version
that differs from the local artifact's `1.0` — yet the run retains the
artifact, because the staleness test treats an empty recorded version as
falsy. -/
theorem claim_C2_counterexample :
    (full_run
        (fun nm => if nm = "a".toList
          then some [⟨some [], none, some "a_1.0.zip".toList, false⟩] else none)
        (fun _ => true)
        [⟨some "a".toList, some true⟩] ["a_1.0.zip".toList]).storage
      = ["a_1.0.zip".toList]
    ∧ (full_run
        (fun nm => if nm = "a".toList
          then some [⟨some [], none, some "a_1.0.zip".toList, false⟩] else none)
        (fun _ => true)
        [⟨some "a".toList, some true⟩]
        ["a_1.0.zip".toList]).latest_versions.lookup "a".toList = some []
    ∧ parse_mod_filename "a_1.0.zip".toList = some ("a".toList, "1.0".toList)
    ∧ ("1.0".toList : Str) ≠ [] :=
  ⟨by decide, by decide, by decide, by decide⟩

/-- Claim C2 amended: during garbage collection a parsed artifact whose
name is not in the full enabled-name set is deleted; one whose name has a
non-empty LatestVersionMap entry differing from its version is deleted;
otherwise it is retained — in particular a name absent from the map is
never deleted on staleness grounds. -/
theorem claim_C2_gc_rules (en : List Str) (lvm : List (Str × Str))
    (storage : List Str) (f n v : Str)
    (hparse : parse_mod_filename f = some (n, v)) (hmem : f ∈ storage) :
    (n ∉ en → f ∉ (cleanup_old_mods en lvm storage).remaining)
    ∧ (∀ lv, n ∈ en → lvm.lookup n = some lv → lv ≠ [] → v ≠ lv →
        f ∉ (cleanup_old_mods en lvm storage).remaining)
    ∧ (n ∈ en → lvm.lookup n = none →
        f ∈ (cleanup_old_mods en lvm storage).remaining)
    ∧ (n ∈ en → lvm.lookup n = some v →
        f ∈ (cleanup_old_mods en lvm storage).remaining) := by
  have hiff := mem_cleanup_remaining_iff en lvm storage f n v hparse hmem
  refine ⟨?_, ?_, ?_, ?_⟩
  · intro hn hmem2
    exact hn (hiff.mp hmem2).1
  · intro lv hen hl hlv hvlv hmem2
    rcases (hiff.mp hmem2).2 with h | h | h
    · rw [hl] at h; cases h
    · rw [hl] at h
      exact hlv (Option.some.inj h)
    · rw [hl] at h
      exact hvlv (Option.some.inj h).symm
  · intro hen hl
    exact hiff.mpr ⟨hen, Or.inl hl⟩
  · intro hen hl
    exact hiff.mpr ⟨hen, Or.inr (Or.inr hl)⟩

/-- Witness for the amended C2: a stale `a_1.0.zip` is deleted when the
recorded latest is the non-empty `2.0`. -/
theorem claim_C2_witness :
    "a_1.0.zip".toList ∉ (cleanup_old_mods ["a".toList]
        [("a".toList, "2.0".toList)] ["a_1.0.zip".toList]).remaining :=
  (claim_C2_gc_rules ["a".toList] [("a".toList, "2.0".toList)]
      ["a_1.0.zip".toList] "a_1.0.zip".toList "a".toList "1.0".toList
      (by decide) (by decide)).2.1 "2.0".toList
    (by decide) (by decide) (by decide) (by decide)

/-- Claim C3 counterexample: `base` is in the ExclusionSet, is not
declared at all, and its local artifact is deleted by the run — the
never-deleted half of the claim fails for undeclared or disabled
ExclusionSet names. -/
theorem claim_C3_counterexample :
    "base".toList ∈ BASE_GAME_MODS
    ∧ (full_run (fun _ => none) (fun _ => true) []
        ["base_1.0.zip".toList]).storage = []
    ∧ (full_run (fun _ => none) (fun _ => true) []
        ["base_1.0.zip".toList]).deleted_count = 1
    ∧ parse_mod_filename "base_1.0.zip".toList
      = some ("base".toList, "1.0".toList) :=
  ⟨by decide, by decide, by decide, by decide⟩

/-- Claim C3 amended: an ExclusionSet name is never fetched (it is never
in the desired-fetch sequence) and never enters LatestVersionMap, so its
artifacts are never stale-deleted; its local artifacts are retained
whenever the name is declared enabled, but are deleted as disabled when it
is not. -/
theorem claim_C3_exclusion (c : Catalog) (fk : FetchOracle)
    (mods : List ModEntry) (storage0 : List Str) (n : Str)
    (hbase : n ∈ BASE_GAME_MODS) :
    n ∉ get_enabled_mods mods
    ∧ (full_run c fk mods storage0).latest_versions.lookup n = none
    ∧ (∀ f v, parse_mod_filename f = some (n, v) →
        f ∈ (download_phase c fk mods storage0).storage →
        n ∈ get_enabled_mod_names mods →
        f ∈ (full_run c fk mods storage0).storage) := by
  have hnotin : n ∉ get_enabled_mods mods :=
    fun h => mem_get_enabled_mods_not_base mods n h hbase
  have hlook : (download_phase c fk mods storage0).latest_versions.lookup n
      = none := by
    rw [download_phase, foldl_process_lvm]
    apply lookup_eq_none_of_forall
    intro p hp
    rcases foldl_lvm_update_keys c (get_enabled_mods mods) _ p hp with h | h
    · simp [init_state] at h
    · exact fun he => hnotin (he ▸ h)
  refine ⟨hnotin, by rw [full_run_lvm]; exact hlook, ?_⟩
  intro f v hparse hmem hen
  rw [full_run_storage]
  rw [mem_cleanup_remaining_iff _ _ _ f n v hparse hmem]
  exact ⟨hen, Or.inl hlook⟩

/-- Witness for the amended C3: an enabled `quality` is skipped by the
fetch loop, absent from the map, and its artifact survives the run. -/
theorem claim_C3_witness :
    "quality".toList ∉ get_enabled_mods [⟨some "quality".toList, some true⟩]
    ∧ (full_run (fun _ => none) (fun _ => true)
        [⟨some "quality".toList, some true⟩]
        ["quality_1.0.zip".toList]).latest_versions.lookup "quality".toList = none
    ∧ "quality_1.0.zip".toList ∈ (full_run (fun _ => none) (fun _ => true)
        [⟨some "quality".toList, some true⟩] ["quality_1.0.zip".toList]).storage := by
  have h := claim_C3_exclusion (fun _ => none) (fun _ => true)
    [⟨some "quality".toList, some true⟩] ["quality_1.0.zip".toList]
    "quality".toList (by decide)
  exact ⟨h.1, h.2.1, h.2.2 "quality_1.0.zip".toList "1.0".toList
    (by decide) (by decide) (by decide)⟩

/-- Claim C4 counterexample: the catalog's `file_name` (`a_2.0.zip`)
disagrees with its reported version (`1.0`), so run 1 downloads the file
and then deletes it as stale; with storage otherwise unchanged, run 2
downloads and deletes it again — the second run is not free of downloads
and deletions. -/
theorem claim_C4_counterexample :
    (full_run
        (fun nm => if nm = "a".toList
          then some [⟨some "1.0".toList, none, some "a_2.0.zip".toList, false⟩] else none)
        (fun _ => true) [⟨some "a".toList, some true⟩]
        (full_run
          (fun nm => if nm = "a".toList
            then some [⟨some "1.0".toList, none, some "a_2.0.zip".toList, false⟩] else none)
          (fun _ => true) [⟨some "a".toList, some true⟩] []).storage).downloads
      = ["a_2.0.zip".toList]
    ∧ (full_run
        (fun nm => if nm = "a".toList
          then some [⟨some "1.0".toList, none, some "a_2.0.zip".toList, false⟩] else none)
        (fun _ => true) [⟨some "a".toList, some true⟩]
        (full_run
          (fun nm => if nm = "a".toList
            then some [⟨some "1.0".toList, none, some "a_2.0.zip".toList, false⟩] else none)
          (fun _ => true) [⟨some "a".toList, some true⟩] []).storage).deleted_count
      = 1 :=
  ⟨by decide, by decide⟩

/-- Claim C4 amended: provided every fetch succeeds and every selected
release's target file name is one the cleanup retains (as holds whenever
the catalog's file names agree with the `name_version.zip` convention for
enabled names), a second run against the unchanged catalog performs zero
downloads and zero deletions; and an item whose selected release is not
the empty object and whose target file name already exists in storage is
skipped with no download attempt. -/
theorem claim_C4_idempotence (c : Catalog) (fk : FetchOracle)
    (mods : List ModEntry) (storage0 : List Str)
    (hfk : ∀ f, fk f = true)
    (hkeep : ∀ n ∈ get_enabled_mods mods, ∀ rs latest, c n = some rs →
      get_latest_release rs = some latest →
      keep_file (get_enabled_mod_names mods)
        (download_phase c fk mods storage0).latest_versions
        (target_filename n latest) = true) :
    (full_run c fk mods (full_run c fk mods storage0).storage).downloads = []
    ∧ (full_run c fk mods (full_run c fk mods storage0).storage).deleted_count = 0
    ∧ (∀ (st : RunState) (n : Str) (rs : List Release) (latest : Release),
        c n = some rs → get_latest_release rs = some latest →
        release_empty latest = false →
        target_filename n latest ∈ st.storage →
        process_mod c fk st n =
          { st with
              latest_versions := (n, release_version latest) :: st.latest_versions,
              skipped_count := st.skipped_count + 1 }) := by
  have hM : (download_phase c fk mods
        (full_run c fk mods storage0).storage).latest_versions
      = (download_phase c fk mods storage0).latest_versions := by
    rw [download_phase, download_phase, foldl_process_lvm, foldl_process_lvm]
    rfl
  have htarget : ∀ n ∈ get_enabled_mods mods, ∀ rs latest, c n = some rs →
      get_latest_release rs = some latest → release_empty latest = false →
      target_filename n latest ∈ (full_run c fk mods storage0).storage := by
    intro n hn rs latest hc hl hne
    rw [full_run_storage, cleanup_old_mods_eq]
    exact List.mem_filter.mpr
      ⟨foldl_process_target_mem c fk hfk (get_enabled_mods mods)
          (init_state storage0) n hn rs latest hc hl hne,
        hkeep n hn rs latest hc hl⟩
  have hskip := foldl_process_all_skip c fk (get_enabled_mods mods)
    (init_state (full_run c fk mods storage0).storage) htarget
  refine ⟨?_, ?_, ?_⟩
  · rw [full_run_downloads, download_phase, hskip.2]
    rfl
  · rw [full_run_deleted, cleanup_old_mods_eq]
    dsimp only
    have hstor2 : (download_phase c fk mods
          (full_run c fk mods storage0).storage).storage
        = (full_run c fk mods storage0).storage := by
      rw [download_phase]
      exact hskip.1
    rw [hstor2, hM, full_run_storage, cleanup_old_mods_eq]
    dsimp only
    rw [List.countP_eq_zero]
    intro f hf
    have hk := List.of_mem_filter hf
    rw [keep_file, decide_eq_true_iff] at hk
    simp [hk]
  · intro st n rs latest hc hl hne hmem
    exact process_mod_of_skip c fk st n rs latest hc hl hne hmem

/-- Witness for the amended C4 on a one-mod catalog with a conventional
file name: the second run downloads and deletes nothing, and the skip rule
fires when the file is present. -/
theorem claim_C4_witness :
    (full_run
        (fun nm => if nm = "a".toList
          then some [⟨some "1.0".toList, none, none, false⟩] else none)
        (fun _ => true) [⟨some "a".toList, some true⟩]
        (full_run
          (fun nm => if nm = "a".toList
            then some [⟨some "1.0".toList, none, none, false⟩] else none)
          (fun _ => true) [⟨some "a".toList, some true⟩] []).storage).downloads = []
    ∧ (full_run
        (fun nm => if nm = "a".toList
          then some [⟨some "1.0".toList, none, none, false⟩] else none)
        (fun _ => true) [⟨some "a".toList, some true⟩]
        (full_run
          (fun nm => if nm = "a".toList
            then some [⟨some "1.0".toList, none, none, false⟩] else none)
          (fun _ => true) [⟨some "a".toList, some true⟩] []).storage).deleted_count
      = 0 := by
  have h := claim_C4_idempotence
    (fun nm => if nm = "a".toList
      then some [⟨some "1.0".toList, none, none, false⟩] else none)
    (fun _ => true) [⟨some "a".toList, some true⟩] []
    (fun _ => rfl)
    (by
      intro n hn rs latest hc hl
      have hna : n = "a".toList := by
        simp [get_enabled_mods] at hn
        exact hn.2.symm
      subst hna
      have hc2 : some ([⟨some "1.0".toList, none, none, false⟩] : List Release)
          = some rs := hc
      have hrs : rs = [⟨some "1.0".toList, none, none, false⟩] :=
        (Option.some.inj hc2).symm
      subst hrs
      have hlat : latest = ⟨some "1.0".toList, none, none, false⟩ := by
        rw [show get_latest_release [(⟨some "1.0".toList, none, none, false⟩ : Release)]
          = some ⟨some "1.0".toList, none, none, false⟩ from by decide] at hl
        exact (Option.some.inj hl).symm
      subst hlat
      decide)
  exact ⟨h.1, h.2.1⟩

end FactorioDaemon
